import Mathlib

/-!
# Verification of `chmutil` cluster batching and submit-script generation

Shallow embedding of `chmutil/cluster.py` (classes `BatchedJobsListGenerator`
and `RocceSubmitScriptGenerator`) together with a spec-modelled fragment of
the job-table builder from `chmutil/core.py` (whose source is not in this
tree; only its tests are).

Modelling conventions:
* A job-table section is reduced to the two fields `cluster.py` reads:
  its section name and its `CONFIG_OUTPUT_IMAGE` value.
* The filesystem seen by the batch generator is the pair of documents at
  the batched-config path and at that path + `.old`; `os.path.isfile` on
  arbitrary output paths is an oracle `isfile : String → Bool`.
* A batch-document section name, as consumed by `_get_job_range`, is
  abstracted to its `int()` parse outcome: `some z` when the name parses
  to the integer `z`, `none` when `int()` raises `ValueError`.
-/

/-- One section of the job-table config, restricted to the fields
`BatchedJobsListGenerator` reads: the section name (the task id) and the
value of the `CONFIG_OUTPUT_IMAGE` key. -/
structure JobSection where
  name : String
  outputImage : String
deriving Repr, DecidableEq

/-- The batch document: an ordered list of sections, each holding the single
comma-joined task-id value (section name, value). -/
def BatchDoc := List (String × String)
deriving Repr, DecidableEq

/-- The slice of the filesystem `BatchedJobsListGenerator` touches: the
content of the batched-job config file (if it exists) and of its `.old`
backup (if it exists). -/
structure FS where
  batchedConfig : Option BatchDoc
  oldConfig : Option BatchDoc
deriving Repr, DecidableEq

/-- `BatchedJobsListGenerator._get_incomplete_jobs_list`: walk the config
sections in order, appending the section name whenever
`os.path.isfile(out_file)` is false. -/
def get_incomplete_jobs_list (isfile : String → Bool) (config : List JobSection) :
    List String :=
  config.foldl (fun job_list s =>
    if !(isfile s.outputImage) then job_list ++ [s.name] else job_list) []

/-- `BatchedJobsListGenerator._write_batched_job_config`: if a batched config
file already exists, `shutil.move` it to the `.old` path (overwriting any
previous backup), then write the new document. -/
def write_batched_job_config (bconfig : BatchDoc) (fs : FS) : FS :=
  let fs1 :=
    match fs.batchedConfig with
    | some prev => { batchedConfig := none, oldConfig := some prev : FS }
    | none => fs
  { fs1 with batchedConfig := some bconfig }

/-- Python `range(start, stop, step)` for natural arguments and `step > 0`
(an empty range when `step = 0`, a case Python rejects with `ValueError` and
which the claims exclude via `jobsPerNode ≥ 1`). -/
def pyRange (start stop step : Nat) : List Nat :=
  if step = 0 then []
  else (List.range ((stop - start + step - 1) / step)).map (fun i => start + i * step)

/-- The loop body of `generate_batched_jobs_list`: for each start index `j`
of `range(0, total, jobspernode)` add a section named `str(job_counter)`
whose value is `','.join(job_list[j:j+jobspernode])`, incrementing
`job_counter`; returns the built sections and the final counter. -/
def batchLoop (job_list : List String) (jobspernode : Nat) :
    List Nat → Nat → BatchDoc × Nat
  | [], job_counter => ([], job_counter)
  | j :: rest, job_counter =>
      let r := batchLoop job_list jobspernode rest (job_counter + 1)
      ((toString job_counter,
        String.intercalate "," ((job_list.drop j).take jobspernode)) :: r.1,
       r.2)

/-- `BatchedJobsListGenerator.generate_batched_jobs_list`: compute the
incomplete list; if empty return 0 without touching the filesystem;
otherwise batch by `jobspernode`, write the batch document (backing up any
prior one) and return the final value of `job_counter`. -/
def generate_batched_jobs_list (jobspernode : Nat) (isfile : String → Bool)
    (config : List JobSection) (fs : FS) : Nat × FS :=
  let job_list := get_incomplete_jobs_list isfile config
  if job_list.length = 0 then (0, fs)
  else
    let r := batchLoop job_list jobspernode (pyRange 0 job_list.length jobspernode) 1
    (r.2, write_batched_job_config r.1 fs)

/-- `RocceSubmitScriptGenerator.SUBMIT_SCRIPT_NAME`. -/
def SUBMIT_SCRIPT_NAME : String := "runjobs.rocce"

/-- `os.path.join` for two components (POSIX semantics on the cases the code
exercises: an absolute second component wins; otherwise a separator is
inserted unless the first component is empty or already ends in one).
The starts-with / ends-with tests are phrased on the character list so the
definition evaluates inside the kernel. -/
def os_path_join (a b : String) : String :=
  if b.data.head? = some '/' then b
  else if a = "" ∨ a.data.getLast? = some '/' then a ++ b
  else a ++ "/" ++ b

/-- The loop of `RocceSubmitScriptGenerator._get_job_range` over the batch
document's section names, each abstracted to its `int()` parse outcome.
A failed parse (`none`) is skipped (`except ValueError: pass`). -/
def get_job_range_loop : List (Option Int) → Int → Int → Int × Int
  | [], minval, maxval => (minval, maxval)
  | none :: rest, minval, maxval => get_job_range_loop rest minval maxval
  | some s_as_int :: rest, minval, maxval =>
      let maxval1 := if s_as_int > maxval then s_as_int else maxval
      if minval = -1 then get_job_range_loop rest s_as_int maxval1
      else if s_as_int < minval then get_job_range_loop rest s_as_int maxval1
      else get_job_range_loop rest minval maxval1

/-- `RocceSubmitScriptGenerator._get_job_range`: scan the sections with
`minval = -1`, `maxval = 0`. -/
def get_job_range (sections : List (Option Int)) : Int × Int :=
  get_job_range_loop sections (-1) 0

/-- `RocceSubmitScriptGenerator._get_instructions`. -/
def get_instructions (out_dir : String) (sections : List (Option Int)) : String :=
  let r := get_job_range sections
  "Run: cd " ++ out_dir ++ "; qsub -t " ++ toString r.1 ++ "-" ++ toString r.2 ++
    " " ++ SUBMIT_SCRIPT_NAME

/-- The configuration state `RocceSubmitScriptGenerator` reads: the output
directory, stdout directory, CHM binary path, shared tmp directory, and the
(parsed) section names of the batched-job config it scans for the range. -/
structure RocceConfig where
  out_dir : String
  stdout_dir : String
  chm_binary : String
  shared_tmp_dir : String
  batchedSections : List (Option Int)

/-- `RocceSubmitScriptGenerator._get_submit_script_path`. -/
def get_submit_script_path (c : RocceConfig) : String :=
  os_path_join c.out_dir SUBMIT_SCRIPT_NAME

/-- The exact text `generate_submit_script` writes to the script file, as the
concatenation of its successive `f.write` calls. -/
def submit_script_content (c : RocceConfig) : String :=
  "#!/bin/sh\n" ++
  "#\n#$ -V\n#$ -S /bin/sh\n" ++
  "#$ -wd " ++ c.out_dir ++ "\n" ++
  "#$ -o " ++ os_path_join c.stdout_dir "$JOB_ID.$TASK_ID.out" ++ "\n" ++
  "#$ -j y\n#$ -N chmjob\n" ++
  "#$ -l h_rt=12:00:00,h_vmem=5G,h=\x27!compute-0-20\x27\n" ++
  "#$ -q all.q\n#$ -m n\n\n" ++
  "echo \"HOST: $HOSTNAME\"\n" ++
  "echo \"DATE: \x60date\x60\"\n\n" ++
  "/usr/bin/time -p " ++ c.chm_binary ++ " $SGE_TASK_ID " ++ c.out_dir ++
    " --scratchdir " ++ c.shared_tmp_dir ++ " --log DEBUG\n"

/-- `RocceSubmitScriptGenerator.generate_submit_script`: writes the script
content and returns the pair `(script, self._get_instructions())` — the
script path first, the instructions second. The written content is carried
alongside the returned pair. -/
def generate_submit_script (c : RocceConfig) : (String × String) × String :=
  let script := get_submit_script_path c
  ((script, get_instructions c.out_dir c.batchedSections), submit_script_content c)

/-! ## Spec-modelled job-table builder

`CHMJobCreator` lives in `chmutil/core.py`, which is not part of this source
tree; only its tests are. The definitions below are modelled from the spec
(§4.1 TilePlanner, §4.2 JobTableBuilder, §3 Task, and the worked examples of
§8), faithful to the spec's examples for token order. -/

/-- Ceiling division, `ceil(a/b)` for positive `b`. -/
def ceilDiv (a b : Nat) : Nat := (a + b - 1) / b

/-- Modelled from the spec: TilePlanner. Grid size is
`ceil(W/Tw) × ceil(H/Th)`; tokens are emitted in the deterministic order the
spec's §8 examples fix (`1,1 1,2 1,3 2,1 2,2 2,3` for a 2×3 grid of a
400×300 image with 200×100 tiles): the first coordinate ranges over
`1..ceil(W/Tw)`, the second over `1..ceil(H/Th)`. -/
def tileTokens (W H Tw Th : Nat) : List String :=
  (List.range (ceilDiv W Tw)).flatMap (fun a =>
    (List.range (ceilDiv H Th)).map (fun b =>
      toString (a + 1) ++ "," ++ toString (b + 1)))

/-- Fuelled worker for `chunksOf`; each step consumes at least one element,
so fuel equal to the list length suffices. Structural recursion on the fuel
keeps the definition reducible. -/
def chunksOfGo : Nat → Nat → List α → List (List α)
  | _, _, [] => []
  | _, 0, _ :: _ => []
  | 0, _ + 1, _ :: _ => []
  | fuel + 1, p + 1, x :: xs =>
      ((x :: xs).take (p + 1)) :: chunksOfGo fuel (p + 1) ((x :: xs).drop (p + 1))

/-- Consecutive chunks of size `p` (the final chunk holds the remainder);
empty for `p = 0`, a case the spec rejects as invalid configuration. -/
def chunksOf (p : Nat) (l : List α) : List (List α) :=
  chunksOfGo l.length p l

/-- The 3-digit zero-padded local sequence number of a task's output
artifact name (`001`, `002`, …). -/
def zeroPad3 (n : Nat) : String :=
  if n < 10 then "00" ++ toString n
  else if n < 100 then "0" ++ toString n
  else toString n

/-- Modelled from the spec: a Task, restricted to the fields the claims
mention — global 1-based id, space-joined `-t row,col` argument string, and
output artifact path. -/
structure SpecTask where
  id : Nat
  args : String
  outputImage : String
deriving Repr, DecidableEq

/-- Modelled from the spec: JobTableBuilder for one image. Split the image's
tile tokens into consecutive chunks of size `tilesPerJob`; the k-th chunk
(0-based) becomes the task with global id `startId + k`, argument string the
space-joined `-t` tokens of the chunk in order, and output path
`<run-root>/<image-name>/<3-digit local sequence>.<image-name>` with the
local sequence restarting at 1 per image. -/
def buildTasksForImageGo (runRoot imageName : String) :
    List (List String) → Nat → Nat → List SpecTask
  | [], _, _ => []
  | chunk :: rest, nextId, localSeq =>
      { id := nextId,
        args := String.intercalate " " (chunk.map (fun t => "-t " ++ t)),
        outputImage := runRoot ++ "/" ++ imageName ++ "/" ++
          zeroPad3 localSeq ++ "." ++ imageName } ::
      buildTasksForImageGo runRoot imageName rest (nextId + 1) (localSeq + 1)

/-- Modelled from the spec: JobTableBuilder for one image — chunk the tile
tokens, then allocate ids from `startId` with the local output sequence
restarting at 1. -/
def buildTasksForImage (runRoot imageName : String) (tokens : List String)
    (tilesPerJob startId : Nat) : List SpecTask :=
  buildTasksForImageGo runRoot imageName (chunksOf tilesPerJob tokens) startId 1

/-! ## Helper lemmas -/

theorem get_incomplete_foldl (isfile : String → Bool) (config : List JobSection) :
    ∀ acc : List String,
      config.foldl (fun job_list s =>
        if !(isfile s.outputImage) then job_list ++ [s.name] else job_list) acc =
      acc ++ (config.filter (fun s => !(isfile s.outputImage))).map JobSection.name := by
  induction config with
  | nil => intro acc; simp
  | cons s rest ih =>
      intro acc
      rw [List.foldl_cons, ih]
      cases h : isfile s.outputImage <;> simp [List.filter_cons, h]

theorem get_job_range_loop_all_none :
    ∀ (L : List (Option Int)) (mn mx : Int), (∀ x ∈ L, x = none) →
      get_job_range_loop L mn mx = (mn, mx) := by
  intro L
  induction L with
  | nil => intro mn mx _; rfl
  | cons a rest ih =>
      intro mn mx h
      have ha : a = none := h a (by simp)
      subst ha
      exact ih mn mx (fun x hx => h x (by simp [hx]))

/-! ## Claim theorems -/

/-- C1: the claim says `generate_batched_jobs_list` returns the number of
batches written, `ceil(n/p)`. The code returns `job_counter` *after* the
final increment: for one incomplete task and `jobsPerNode = 1` it writes a
single-batch document yet returns 2 — an off-by-one against its own
docstring ("Number of jobs that need to be run") and the spec. -/
theorem C1_return_off_by_one :
    (generate_batched_jobs_list 1 (fun _ => false)
        [{ name := "1", outputImage := "/run/foo.png/001.foo.png" }]
        { batchedConfig := none, oldConfig := none }).1 = 2 ∧
    (generate_batched_jobs_list 1 (fun _ => false)
        [{ name := "1", outputImage := "/run/foo.png/001.foo.png" }]
        { batchedConfig := none, oldConfig := none }).2.batchedConfig =
      some [("1", "1")] :=
  ⟨rfl, rfl⟩

/-- C5: whenever the incomplete-task list is empty,
`generate_batched_jobs_list` returns 0 and leaves the filesystem (batch
document and backup) untouched. -/
theorem C5_empty_list_no_write (p : Nat) (isfile : String → Bool)
    (config : List JobSection) (fs : FS)
    (h : get_incomplete_jobs_list isfile config = []) :
    generate_batched_jobs_list p isfile config fs = (0, fs) := by
  unfold generate_batched_jobs_list
  simp [h]

theorem C5_empty_list_no_write_witness :
    generate_batched_jobs_list 3 (fun _ => true)
      [{ name := "1", outputImage := "/a" }]
      { batchedConfig := some [("1", "1")], oldConfig := none } =
      (0, { batchedConfig := some [("1", "1")], oldConfig := none }) :=
  C5_empty_list_no_write 3 (fun _ => true)
    [{ name := "1", outputImage := "/a" }]
    { batchedConfig := some [("1", "1")], oldConfig := none } rfl

/-- C6: on a non-empty regeneration with a pre-existing batch document, the
old document is moved (not deleted) to the `.old` backup slot, overwriting
whatever backup was there, and a new batch document is written. -/
theorem C6_backup_rename (p : Nat) (isfile : String → Bool)
    (config : List JobSection) (fs : FS) (prev : BatchDoc)
    (hne : get_incomplete_jobs_list isfile config ≠ [])
    (hprev : fs.batchedConfig = some prev) :
    ((generate_batched_jobs_list p isfile config fs).2).oldConfig = some prev ∧
    ∃ newdoc,
      ((generate_batched_jobs_list p isfile config fs).2).batchedConfig = some newdoc := by
  unfold generate_batched_jobs_list write_batched_job_config
  have hlen : ¬ (get_incomplete_jobs_list isfile config).length = 0 := by
    simpa [List.length_eq_zero] using hne
  simp [hlen, hprev]

theorem C6_backup_rename_witness :
    ((generate_batched_jobs_list 1 (fun _ => false)
        [{ name := "7", outputImage := "/x" }]
        { batchedConfig := some [("1", "9")],
          oldConfig := some [("0", "stale")] }).2).oldConfig = some [("1", "9")] ∧
    ∃ newdoc,
      ((generate_batched_jobs_list 1 (fun _ => false)
          [{ name := "7", outputImage := "/x" }]
          { batchedConfig := some [("1", "9")],
            oldConfig := some [("0", "stale")] }).2).batchedConfig = some newdoc :=
  C6_backup_rename 1 (fun _ => false)
    [{ name := "7", outputImage := "/x" }]
    { batchedConfig := some [("1", "9")], oldConfig := some [("0", "stale")] }
    [("1", "9")] (by decide) rfl

/-- C7: the incomplete list is exactly the job-table sections whose recorded
output image is not an existing file, in section order (and the scan is a
total function — a missing file is data, not an error). -/
theorem C7_incomplete_list_is_filter (isfile : String → Bool)
    (config : List JobSection) :
    get_incomplete_jobs_list isfile config =
      (config.filter (fun s => !(isfile s.outputImage))).map JobSection.name := by
  unfold get_incomplete_jobs_list
  rw [get_incomplete_foldl isfile config []]
  exact List.nil_append _

/-- C8: the generated submit script is the shebang, followed by the
SGE resource-directive header, followed by the host and date echoes,
followed by the `/usr/bin/time -p` invocation of the CHM binary with the
`$SGE_TASK_ID` array task-index variable, the `--scratchdir` flag and the
`--log` flag — in that order. -/
theorem C8_script_layout (c : RocceConfig) :
    submit_script_content c =
      "#!/bin/sh\n" ++
      ("#\n#$ -V\n#$ -S /bin/sh\n" ++ "#$ -wd " ++ c.out_dir ++ "\n" ++
        "#$ -o " ++ os_path_join c.stdout_dir "$JOB_ID.$TASK_ID.out" ++ "\n" ++
        "#$ -j y\n#$ -N chmjob\n" ++
        "#$ -l h_rt=12:00:00,h_vmem=5G,h=\x27!compute-0-20\x27\n" ++
        "#$ -q all.q\n#$ -m n\n\n") ++
      ("echo \"HOST: $HOSTNAME\"\n" ++ "echo \"DATE: \x60date\x60\"\n\n") ++
      ("/usr/bin/time -p " ++ c.chm_binary ++ " $SGE_TASK_ID " ++ c.out_dir ++
        " --scratchdir " ++ c.shared_tmp_dir ++ " --log DEBUG\n") := by
  simp only [submit_script_content, String.append_assoc]

/-- C10: when no section name of the batch document parses as an integer
(in particular when there are no sections), the range scan returns the
untouched initial pair `(-1, 0)` and the submission instruction embeds the
task-array range `-1-0`. -/
theorem C10_sentinel_range (d : String) (L : List (Option Int))
    (h : ∀ x ∈ L, x = none) :
    get_job_range L = (-1, 0) ∧
    get_instructions d L = "Run: cd " ++ d ++ "; qsub -t -1-0 " ++ SUBMIT_SCRIPT_NAME := by
  have hr : get_job_range L = (-1, 0) := get_job_range_loop_all_none L (-1) 0 h
  refine ⟨hr, ?_⟩
  unfold get_instructions
  rw [hr]
  simp [String.append_assoc]
  congr 1

theorem C10_sentinel_range_witness :
    get_job_range [none, none] = (-1, 0) ∧
    get_instructions "/out" [none, none] =
      "Run: cd " ++ "/out" ++ "; qsub -t -1-0 " ++ SUBMIT_SCRIPT_NAME :=
  C10_sentinel_range "/out" [none, none] (by decide)

/-- C4 counterexample: at a concrete configuration the pair returned by
`generate_submit_script` has the *script path* first and the human-readable
submission command second, while the claim states the command comes first;
the two components are distinct strings, so the claimed order is false. -/
theorem C4_counterexample :
    (generate_submit_script
        { out_dir := "/out", stdout_dir := "/out/stdout", chm_binary := "/bin/chm",
          shared_tmp_dir := "/tmp/s", batchedSections := [some 1, some 2] }).1 =
      ("/out/runjobs.rocce", "Run: cd /out; qsub -t 1-2 runjobs.rocce") ∧
    "/out/runjobs.rocce" ≠ "Run: cd /out; qsub -t 1-2 runjobs.rocce" := by
  decide

/-- C4 amended: `generate_submit_script` returns the pair with the script's
filesystem path as the *first* component and the human-readable `qsub`
submission command (over the scanned task-id range) as the *second* —
matching the code and its docstring, with the components swapped relative
to the claim. -/
theorem C4_amended_return_order (c : RocceConfig) :
    ∃ mn mx : Int, get_job_range c.batchedSections = (mn, mx) ∧
      (generate_submit_script c).1 =
        (os_path_join c.out_dir SUBMIT_SCRIPT_NAME,
         "Run: cd " ++ c.out_dir ++ "; qsub -t " ++ toString mn ++ "-" ++
           toString mx ++ " " ++ SUBMIT_SCRIPT_NAME) :=
  ⟨(get_job_range c.batchedSections).1, (get_job_range c.batchedSections).2,
    rfl, rfl⟩

/-- C3 counterexample: on a batch document whose section names parse to
`-1` and `5`, the scan returns `(5, 5)`: `-1` is among the parsed integers
but the reported minimum `5` is not `≤ -1`, so the result is not the
`(min, max)` of the parsed integers. -/
theorem C3_counterexample :
    get_job_range [some (-1), some 5] = (5, 5) ∧
    (-1 : Int) ∈ List.filterMap id ([some (-1), some 5] : List (Option Int)) ∧
    ¬ (get_job_range [some (-1), some 5]).1 ≤ (-1 : Int) := by
  refine ⟨rfl, by decide, by decide⟩

/-- C9: for a single 400×300 image `foo1.png` with 200×100 tiles and zero
overlap, the spec-modelled job-table builder yields, with `tilesPerJob = 1`,
exactly six tasks with ids 1..6, the expected per-tile argument strings in
order (task 1's being `-t 1,1`), and output paths
`<run-root>/foo1.png/00k.foo1.png`; with `tilesPerJob = 5` exactly two
tasks whose argument strings are the quoted five-token and one-token
chunks. -/
theorem C9_worked_examples (root : String) :
    ((buildTasksForImage root "foo1.png" (tileTokens 400 300 200 100) 1 1).map
        SpecTask.id = [1, 2, 3, 4, 5, 6] ∧
      (buildTasksForImage root "foo1.png" (tileTokens 400 300 200 100) 1 1).map
        SpecTask.args =
          ["-t 1,1", "-t 1,2", "-t 1,3", "-t 2,1", "-t 2,2", "-t 2,3"] ∧
      (buildTasksForImage root "foo1.png" (tileTokens 400 300 200 100) 1 1).map
        SpecTask.outputImage =
          [root ++ "/foo1.png/001.foo1.png", root ++ "/foo1.png/002.foo1.png",
           root ++ "/foo1.png/003.foo1.png", root ++ "/foo1.png/004.foo1.png",
           root ++ "/foo1.png/005.foo1.png", root ++ "/foo1.png/006.foo1.png"]) ∧
    ((buildTasksForImage root "foo1.png" (tileTokens 400 300 200 100) 5 1).map
        SpecTask.id = [1, 2] ∧
      (buildTasksForImage root "foo1.png" (tileTokens 400 300 200 100) 5 1).map
        SpecTask.args = ["-t 1,1 -t 1,2 -t 1,3 -t 2,1 -t 2,2", "-t 2,3"] ∧
      (buildTasksForImage root "foo1.png" (tileTokens 400 300 200 100) 5 1).map
        SpecTask.outputImage =
          [root ++ "/foo1.png/001.foo1.png", root ++ "/foo1.png/002.foo1.png"]) := by
  refine ⟨⟨rfl, rfl, ?_⟩, rfl, rfl, ?_⟩ <;>
    (simp [buildTasksForImage, chunksOf, chunksOfGo, tileTokens, ceilDiv, zeroPad3,
           buildTasksForImageGo, String.append_assoc]
     and_intros <;> congr 1)

/-! ## Min/max fold helpers for the range-scan proof -/

theorem foldl_min_le_init (l : List Int) : ∀ a : Int, l.foldl min a ≤ a := by
  induction l with
  | nil => intro a; exact le_refl a
  | cons x xs ih =>
      intro a
      exact le_trans (ih (min a x)) (min_le_left a x)

theorem foldl_min_le_mem (l : List Int) :
    ∀ (a z : Int), z ∈ l → l.foldl min a ≤ z := by
  induction l with
  | nil => intro a z hz; simp at hz
  | cons x xs ih =>
      intro a z hz
      rcases List.mem_cons.mp hz with rfl | hz1
      · exact le_trans (foldl_min_le_init xs (min a z)) (min_le_right a z)
      · exact ih (min a x) z hz1

theorem foldl_min_mem (l : List Int) :
    ∀ a : Int, l.foldl min a = a ∨ l.foldl min a ∈ l := by
  induction l with
  | nil => intro a; left; rfl
  | cons x xs ih =>
      intro a
      rw [List.foldl_cons]
      rcases ih (min a x) with h | h
      · rw [h]
        rcases min_choice a x with h2 | h2
        · left; exact h2
        · right; rw [h2]; exact List.mem_cons_self x xs
      · right; exact List.mem_cons_of_mem x h

theorem foldl_max_init_le (l : List Int) : ∀ a : Int, a ≤ l.foldl max a := by
  induction l with
  | nil => intro a; exact le_refl a
  | cons x xs ih =>
      intro a
      exact le_trans (le_max_left a x) (ih (max a x))

theorem foldl_max_mem_le (l : List Int) :
    ∀ (a z : Int), z ∈ l → z ≤ l.foldl max a := by
  induction l with
  | nil => intro a z hz; simp at hz
  | cons x xs ih =>
      intro a z hz
      rcases List.mem_cons.mp hz with rfl | hz1
      · exact le_trans (le_max_right a z) (foldl_max_init_le xs (max a z))
      · exact ih (max a x) z hz1

theorem foldl_max_mem (l : List Int) :
    ∀ a : Int, l.foldl max a = a ∨ l.foldl max a ∈ l := by
  induction l with
  | nil => intro a; left; rfl
  | cons x xs ih =>
      intro a
      rw [List.foldl_cons]
      rcases ih (max a x) with h | h
      · rw [h]
        rcases max_choice a x with h2 | h2
        · left; exact h2
        · right; rw [h2]; exact List.mem_cons_self x xs
      · right; exact List.mem_cons_of_mem x h

/-- Once the scan has seen a first positive value, its state `(mn, mx)` is
folded with `min`/`max` over the remaining parsed values (all positive, so
the `-1` sentinel can never be re-triggered). -/
theorem get_job_range_loop_pos :
    ∀ (L : List (Option Int)) (mn mx : Int),
      (∀ z ∈ L.filterMap id, (1 : Int) ≤ z) → 1 ≤ mn →
      get_job_range_loop L mn mx =
        ((L.filterMap id).foldl min mn, (L.filterMap id).foldl max mx) := by
  intro L
  induction L with
  | nil => intro mn mx _ _; rfl
  | cons a rest ih =>
      intro mn mx hall hmn
      cases a with
      | none =>
          have h1 : (none :: rest).filterMap (id : Option Int → Option Int) =
              rest.filterMap id := by simp
          rw [h1]
          exact ih mn mx (by rw [h1] at hall; exact hall) hmn
      | some s =>
          have h1 : (some s :: rest).filterMap (id : Option Int → Option Int) =
              s :: rest.filterMap id := by simp
          have hs : (1 : Int) ≤ s := by
            apply hall
            rw [h1]; exact List.mem_cons_self _ _
          have hrest : ∀ z ∈ rest.filterMap id, (1 : Int) ≤ z := by
            intro z hz
            apply hall
            rw [h1]; exact List.mem_cons_of_mem _ hz
          have hmn1 : ¬ mn = -1 := by omega
          have hmax : (if s > mx then s else mx) = max mx s := by
            rcases le_or_lt s mx with h | h
            · rw [if_neg (not_lt.mpr h), max_eq_left h]
            · rw [if_pos h, max_eq_right h.le]
          rw [h1, List.foldl_cons, List.foldl_cons]
          show (if mn = -1 then
              get_job_range_loop rest s (if s > mx then s else mx)
            else if s < mn then
              get_job_range_loop rest s (if s > mx then s else mx)
            else get_job_range_loop rest mn (if s > mx then s else mx)) = _
          rw [if_neg hmn1, hmax]
          rcases lt_or_le s mn with h | h
          · rw [if_pos h, min_eq_right h.le]
            exact ih s (max mx s) hrest hs
          · rw [if_neg (not_lt.mpr h), min_eq_left h]
            exact ih mn (max mx s) hrest hmn

/-- With at least one parsed, all-positive section name, the range scan
returns the fold of `min`/`max` seeded at the first parsed value. -/
theorem get_job_range_pos :
    ∀ L : List (Option Int),
      (∀ z ∈ L.filterMap id, (1 : Int) ≤ z) → L.filterMap id ≠ [] →
      ∃ s rest1, L.filterMap id = s :: rest1 ∧
        get_job_range L = (rest1.foldl min s, rest1.foldl max s) := by
  intro L
  induction L with
  | nil => intro _ hne; simp at hne
  | cons a rest ih =>
      intro hall hne
      cases a with
      | none =>
          have h1 : (none :: rest).filterMap (id : Option Int → Option Int) =
              rest.filterMap id := by simp
          rw [h1] at hall hne ⊢
          exact ih hall hne
      | some s =>
          have h1 : (some s :: rest).filterMap (id : Option Int → Option Int) =
              s :: rest.filterMap id := by simp
          have hs : (1 : Int) ≤ s := by
            apply hall
            rw [h1]; exact List.mem_cons_self _ _
          have hrest : ∀ z ∈ rest.filterMap id, (1 : Int) ≤ z := by
            intro z hz
            apply hall
            rw [h1]; exact List.mem_cons_of_mem _ hz
          refine ⟨s, rest.filterMap id, h1, ?_⟩
          have hmax : (if s > (0 : Int) then s else 0) = s :=
            if_pos (by omega)
          show (if (-1 : Int) = -1 then
              get_job_range_loop rest s (if s > (0 : Int) then s else 0)
            else if s < (-1 : Int) then
              get_job_range_loop rest s (if s > (0 : Int) then s else 0)
            else get_job_range_loop rest (-1) (if s > (0 : Int) then s else 0)) = _
          rw [if_pos rfl, hmax]
          exact get_job_range_loop_pos rest s s hrest hs

/-- C3 amended: for every batch document whose successfully parsed section
names are all positive (as the generator's `1..M` decimal names are) and at
least one parses, the range scan returns `(min, max)` over the parsed
integers, silently ignoring names that do not parse. (As stated over all
documents the claim fails: negative parsed values collide with the `-1`
sentinel and with `maxval`'s initial `0`, see the counterexample.) -/
theorem C3_amended_min_max (L : List (Option Int))
    (hpos : ∀ z ∈ L.filterMap id, (1 : Int) ≤ z)
    (hne : L.filterMap id ≠ []) :
    (get_job_range L).1 ∈ L.filterMap id ∧
    (get_job_range L).2 ∈ L.filterMap id ∧
    ∀ z ∈ L.filterMap id, (get_job_range L).1 ≤ z ∧ z ≤ (get_job_range L).2 := by
  obtain ⟨s, rest1, heq, hr⟩ := get_job_range_pos L hpos hne
  rw [hr, heq]
  simp only
  refine ⟨?_, ?_, ?_⟩
  · rcases foldl_min_mem rest1 s with h | h
    · rw [h]; exact List.mem_cons_self _ _
    · exact List.mem_cons_of_mem _ h
  · rcases foldl_max_mem rest1 s with h | h
    · rw [h]; exact List.mem_cons_self _ _
    · exact List.mem_cons_of_mem _ h
  · intro z hz
    rcases List.mem_cons.mp hz with rfl | hz1
    · exact ⟨foldl_min_le_init rest1 z, foldl_max_init_le rest1 z⟩
    · exact ⟨foldl_min_le_mem rest1 s z hz1, foldl_max_mem_le rest1 s z hz1⟩

theorem C3_amended_min_max_witness :
    (get_job_range [some 2, none, some 5]).1 ∈
      List.filterMap id ([some 2, none, some 5] : List (Option Int)) ∧
    (get_job_range [some 2, none, some 5]).2 ∈
      List.filterMap id ([some 2, none, some 5] : List (Option Int)) ∧
    ∀ z ∈ List.filterMap id ([some 2, none, some 5] : List (Option Int)),
      (get_job_range [some 2, none, some 5]).1 ≤ z ∧
      z ≤ (get_job_range [some 2, none, some 5]).2 :=
  C3_amended_min_max [some 2, none, some 5] (by decide) (by decide)

/-! ## Batch-document shape lemmas -/

/-- The generator's loop produces, from the start indices `idxs` and the
running counter `c`, one section per index: name `str(counter)`, value the
comma-joined slice `job_list[j:j+p]`. -/
theorem batchLoop_sections (jl : List String) (p : Nat) :
    ∀ (idxs : List Nat) (c : Nat),
      (batchLoop jl p idxs c).1 =
        (idxs.enumFrom c).map (fun ki =>
          (toString ki.1, String.intercalate "," ((jl.drop ki.2).take p))) := by
  intro idxs
  induction idxs with
  | nil => intro c; rfl
  | cons j rest ih =>
      intro c
      show (toString c, String.intercalate "," ((jl.drop j).take p)) ::
          (batchLoop jl p rest (c + 1)).1 = _
      rw [ih (c + 1)]
      rfl

/-- `range(0, n, p)` enumerates the multiples of `p` below the ceiling. -/
theorem pyRange_zero (n p : Nat) (hp : 1 ≤ p) :
    pyRange 0 n p = (List.range (ceilDiv n p)).map (fun i => i * p) := by
  unfold pyRange ceilDiv
  rw [if_neg (by omega)]
  simp

/-- Re-indexing the enumerated multiples of `p` as `k ↦ (k+1, k*p)`. -/
theorem enumFrom_map_sections (jl : List String) (p m : Nat) :
    ((((List.range m).map (fun i => i * p)).enumFrom 1).map (fun ki =>
        (toString ki.1, String.intercalate "," ((jl.drop ki.2).take p)))) =
      (List.range m).map (fun k =>
        (toString (k + 1), String.intercalate "," ((jl.drop (k * p)).take p))) := by
  apply List.ext_getElem
  · simp
  · intro i h1 h2
    simp only [List.getElem_map, List.getElem_enumFrom, List.getElem_range]
    rw [Nat.add_comm 1 i]

/-- One ceiling-division step: peeling the first chunk of a non-empty list. -/
theorem ceilDiv_pos_step (p n : Nat) (hp : 1 ≤ p) (hn : 1 ≤ n) :
    ceilDiv n p = ceilDiv (n - p) p + 1 := by
  unfold ceilDiv
  rcases Nat.le_total n p with h | h
  · have h1 : n - p = 0 := by omega
    rw [h1]
    have h2 : n + p - 1 = (n - 1) + p := by omega
    rw [h2, Nat.add_div_right _ (by omega : 0 < p)]
    have h3 : (n - 1) / p = 0 := Nat.div_eq_of_lt (by omega)
    have h4 : (0 + p - 1) / p = 0 := Nat.div_eq_of_lt (by omega)
    omega
  · have h2 : n + p - 1 = ((n - p) + p - 1) + p := by omega
    rw [h2, Nat.add_div_right _ (by omega : 0 < p)]

/-- The consecutive size-`p` chunks taken at the multiples of `p`
concatenate back to the original list: every element appears exactly once,
in the original order. -/
theorem range_chunks_join (p : Nat) (hp : 1 ≤ p) (jl : List String) :
    (List.range (ceilDiv jl.length p)).flatMap
        (fun k => (jl.drop (k * p)).take p) = jl := by
  generalize hn : jl.length = n
  induction n using Nat.strong_induction_on generalizing jl with
  | _ n ih =>
    cases jl with
    | nil =>
        have h0 : ceilDiv 0 p = 0 := Nat.div_eq_of_lt (by omega)
        simp at hn
        subst hn
        simp [h0]
    | cons x xs =>
        have hn1 : 1 ≤ n := by
          rw [← hn]; simp
        rw [ceilDiv_pos_step p n hp hn1, List.range_succ_eq_map,
            List.flatMap_cons, List.flatMap_map]
        have hfun :
            (fun k : Nat => ((x :: xs).drop (Nat.succ k * p)).take p) =
              fun k => (((x :: xs).drop p).drop (k * p)).take p := by
          funext k
          rw [List.drop_drop, Nat.succ_mul, Nat.add_comm]
        rw [hfun]
        have hlen : ((x :: xs).drop p).length = n - p := by
          rw [List.length_drop, hn]
        have hrec := ih (n - p) (by omega) ((x :: xs).drop p) hlen
        rw [hrec]
        simp [List.take_append_drop]

/-- Whatever was on disk before, after `_write_batched_job_config` the
batched-config path holds exactly the new document. -/
theorem write_batched_config_sets (bconfig : BatchDoc) (fs : FS) :
    (write_batched_job_config bconfig fs).batchedConfig = some bconfig := by
  rcases fs with ⟨bc, oc⟩
  cases bc <;> rfl

/-- C2: on a non-empty incomplete list of length `n` and `jobsPerNode = p ≥ 1`,
the written batch document has sections named `1..ceil(n/p)` in order (decimal,
1-based, consecutive), section `k+1` holding the comma-joined `k`-th
consecutive chunk `job_list[k*p : k*p+p]`; and those chunks concatenate back
to the incomplete list, so every id appears exactly once in original order. -/
theorem C2_batch_document (p : Nat) (hp : 1 ≤ p) (isfile : String → Bool)
    (config : List JobSection) (fs : FS)
    (hne : get_incomplete_jobs_list isfile config ≠ []) :
    ((generate_batched_jobs_list p isfile config fs).2).batchedConfig =
      some ((List.range
          (ceilDiv (get_incomplete_jobs_list isfile config).length p)).map
        (fun k => (toString (k + 1),
          String.intercalate ","
            (((get_incomplete_jobs_list isfile config).drop (k * p)).take p)))) ∧
    (List.range (ceilDiv (get_incomplete_jobs_list isfile config).length p)).flatMap
        (fun k => ((get_incomplete_jobs_list isfile config).drop (k * p)).take p) =
      get_incomplete_jobs_list isfile config := by
  refine ⟨?_, range_chunks_join p hp _⟩
  have hlen : ¬ (get_incomplete_jobs_list isfile config).length = 0 := by
    simpa [List.length_eq_zero] using hne
  simp only [generate_batched_jobs_list, hlen, if_false, ite_false]
  rw [write_batched_config_sets, batchLoop_sections,
      pyRange_zero (get_incomplete_jobs_list isfile config).length p hp,
      enumFrom_map_sections]

theorem C2_batch_document_witness :
    ((generate_batched_jobs_list 2 (fun _ => false)
        [{ name := "1", outputImage := "/a" }, { name := "2", outputImage := "/b" },
         { name := "3", outputImage := "/c" }]
        { batchedConfig := none, oldConfig := none }).2).batchedConfig =
      some [("1", "1,2"), ("2", "3")] := by
  have h := C2_batch_document 2 (by decide) (fun _ => false)
      [{ name := "1", outputImage := "/a" }, { name := "2", outputImage := "/b" },
       { name := "3", outputImage := "/c" }]
      { batchedConfig := none, oldConfig := none } (by decide)
  rw [h.1]
  decide
